import Mathlib

/-!
Shallow embedding of the `bitcoin-rest` library (src/lib.rs): the
response-decoding layer of a Bitcoin Core REST client.  Bytes are modelled
as `Nat` (values < 256), byte strings as `List Nat`, Rust `String` bodies as
`List Char`.  Fallible decoding returns `Except`; a Rust panic (out-of-range
slice index) is modelled by the dedicated `CallResult.panicked` outcome.
-/

namespace BitcoinRest

/-! ## Little-endian integer readers (as used by the consensus codec) -/

/-- Little-endian value of a byte list (first byte is least significant). -/
def leVal : List Nat → Nat
  | [] => 0
  | b :: rest => b + 256 * leVal rest

/-- Twos-complement reading of a 32-bit word as a signed integer
(Rust `i32` as decoded by the consensus codec). -/
def asI32 (n : Nat) : Int :=
  if n < 2 ^ 31 then (n : Int) else (n : Int) - 2 ^ 32

/-! ## Prefix decoders

`Dec α` models a rust-bitcoin `consensus_decode` call reading from an
`io::Read` over a byte slice: it consumes a prefix of the input and returns
the decoded value together with the *unconsumed* remainder.  The library
`Error` enum has a transport variant (irrelevant here) and
`BitcoinEncodeError`, the opaque error propagated from the codec. -/

inductive DecodeError where
  | bitcoinEncodeError
deriving DecidableEq, Repr

/-- A prefix decoder over a byte list. -/
abbrev Dec (α : Type) := List Nat → Except DecodeError (α × List Nat)

/-- Sequencing of prefix decoders (the `?` chaining in the Rust decoders). -/
def dbind {α β : Type} (f : Dec α) (k : α → Dec β) : Dec β := fun bs =>
  match f bs with
  | .error e => .error e
  | .ok (a, rest) => k a rest

/-- A decoder returning a value without consuming input. -/
def dpure {α : Type} (a : α) : Dec α := fun bs => .ok (a, bs)

/-- Read exactly `n` raw bytes from the front of the input; fails when
fewer are available (the reader hits end-of-stream). -/
def readBytes (n : Nat) : Dec (List Nat) := fun bs =>
  if n ≤ bs.length then .ok (bs.take n, bs.drop n) else .error .bitcoinEncodeError

/-- Read one byte (`u8::consensus_decode`). -/
def readU8 : Dec Nat :=
  dbind (readBytes 1) fun b => dpure (leVal b)

/-- Read a little-endian `u32`. -/
def readU32le : Dec Nat :=
  dbind (readBytes 4) fun b => dpure (leVal b)

/-- Read a little-endian `u64`. -/
def readU64le : Dec Nat :=
  dbind (readBytes 8) fun b => dpure (leVal b)

/-- Read a little-endian `i32` (the transaction/header version field). -/
def readI32le : Dec Int :=
  dbind (readBytes 4) fun b => dpure (asI32 (leVal b))

/-! ## Block header codec

`bitcoin::blockdata::block::BlockHeader` and its `Decodable` instance:
six fixed-width fields read in order, 80 bytes in total. -/

structure BlockHeader where
  version : Int
  prev_blockhash : List Nat
  merkle_root : List Nat
  time : Nat
  bits : Nat
  nonce : Nat
deriving DecidableEq, Repr

/-- The `BlockHeader::consensus_decode`: version (i32), previous block hash
(32 bytes), merkle root (32 bytes), time, bits, nonce (u32 each). -/
def headerDec : Dec BlockHeader :=
  dbind readI32le fun version =>
  dbind (readBytes 32) fun prev =>
  dbind (readBytes 32) fun merkle =>
  dbind readU32le fun time =>
  dbind readU32le fun bits =>
  dbind readU32le fun nonce =>
  dpure ⟨version, prev, merkle, time, bits, nonce⟩

/-- The header value read from the first 80 bytes of `bs` (pure field
extraction; `headerDec` returns exactly this value when it succeeds). -/
def mkHeaderFrom (bs : List Nat) : BlockHeader :=
  ⟨asI32 (leVal (bs.take 4)),
   (bs.drop 4).take 32,
   (bs.drop 36).take 32,
   leVal ((bs.drop 68).take 4),
   leVal ((bs.drop 72).take 4),
   leVal ((bs.drop 76).take 4)⟩

/-- Decoding one header record from a byte slice, discarding the unread
remainder — this is what `BlockHeader::consensus_decode(slice)` returns to
the `headers` loop. -/
def headerRecordDecode (bs : List Nat) : Except DecodeError BlockHeader :=
  match headerDec bs with
  | .ok (h, _) => .ok h
  | .error e => .error e

/-! ## The `headers` endpoint decoding loop

`Context::headers` (src/lib.rs lines 160–171) fetches
`headers/<count>/<blockhash>.bin` and then runs
```text
let mut offset = 0;
while offset < result.len() {
    ret.push(BlockHeader::consensus_decode(result[offset..(offset+80)].as_ref())?);
    offset += 80;
}
```
The slice expression `result[offset..offset+80]` panics when fewer than 80
bytes remain; the `?` aborts the loop on the first decode error.  The loop
is generic in the record decoder to mirror the opaque `Decodable` call. -/

inductive CallResult (ε α : Type) where
  | panicked
  | error (e : ε)
  | ok (val : α)
deriving DecidableEq, Repr

/-- The `while offset < result.len()` loop of `Context::headers`, one
80-byte window at a time. -/
def headersLoop {ε H : Type} (dec : List Nat → Except ε H) :
    List Nat → CallResult ε (List H)
  | [] => .ok []
  | b :: tl =>
    if (b :: tl).length < 80 then .panicked
    else
      match dec ((b :: tl).take 80) with
      | .error e => .error e
      | .ok h =>
        match headersLoop dec ((b :: tl).drop 80) with
        | .panicked => .panicked
        | .error e => .error e
        | .ok hs => .ok (h :: hs)
termination_by bs => bs.length
decreasing_by simp; omega

/-- The request path built by `Context::headers`: the only place `count`
is used. -/
def headersPath (count : Nat) (blockhash : String) : String :=
  "headers/" ++ toString count ++ "/" ++ blockhash

/-- The `Context::headers` given the payload the transport returned: the pair
of the request path it fetches and the decoded result. -/
def headersModel (count : Nat) (blockhash : String) (payload : List Nat) :
    String × CallResult DecodeError (List BlockHeader) :=
  (headersPath count blockhash, headersLoop headerRecordDecode payload)

/-- The decoding half of `Context::headers` (`count` is passed, as in the
Rust signature, but the loop never consults it). -/
def headersResult (count : Nat) (payload : List Nat) :
    CallResult DecodeError (List BlockHeader) :=
  (headersModel count "" payload).2

/-! ## `call_hex` (src/lib.rs lines 131–140)

The response body is a Rust `String`; the function ends with
`result.pop(); Ok(result)`.  `String::pop` removes and returns the last
character, or returns `None` on the empty string, leaving it unchanged. -/

/-- The Rust `String::pop`: the string without its last character, together
with the removed character when the string is non-empty. -/
def stringPop : List Char → List Char × Option Char
  | [] => ([], none)
  | [c] => ([], some c)
  | a :: b :: rest =>
    let r := stringPop (b :: rest)
    (a :: r.1, r.2)

/-- The `Context::call_hex` applied to the text body the transport returned:
`result.pop()` then `Ok(result)`. -/
def call_hex (body : List Char) : List Char :=
  (stringPop body).1

/-! ## `Context::getutxos` request path (src/lib.rs lines 183–194) -/

/-- The URL built by `Context::getutxos` before `call_json` is invoked:
`"getutxos/"`, then `"checkmempool/"` when the flag is set, then
`txid.to_string() + "-" + i.to_string()` for each enumerated txid. -/
def getutxosPath (checkmempool : Bool) (txids : List String) : String :=
  let url := "getutxos/"
  let url := if checkmempool then url ++ "checkmempool/" else url
  txids.enum.foldl (fun u p => u ++ (p.2 ++ "-" ++ toString p.1)) url

/-- The spec formulation of the outpoint section of the `getutxos` path:
each txid, joined with `"-"` to its zero-based position, concatenated with
no separator, positions counted from `i`. -/
def outpointConcat : List String → Nat → String
  | [], _ => ""
  | t :: ts, i => t ++ "-" ++ toString i ++ outpointConcat ts (i + 1)

/-! ## JSON deserialization of `Utxo` (src/lib.rs lines 48–67)

`Utxo` is `#[derive(Deserialize)]` with `rename_all = "camelCase"`; its
`value` field has Rust type `f64`, so serde stores the JSON number itself —
no satoshi conversion is performed anywhere in the library.  JSON numbers
are modelled as exact rationals (every concrete value used below is exactly
representable as an `f64`). -/

inductive Json where
  | null
  | num (q : ℚ)
  | str (s : String)
  | bool (b : Bool)
  | arr (elems : List Json)
  | obj (fields : List (String × Json))

/-- Field lookup in a JSON object (serde ignores unknown fields). -/
def Json.lookupField : Json → String → Option Json
  | .obj fs, k => fs.lookup k
  | _, _ => none

/-- serde `u32` deserialization: the JSON number must be an integer in
`u32` range. -/
def getU32 : Option Json → Except String Nat
  | some (.num q) =>
    if q.den = 1 ∧ 0 ≤ q.num ∧ q.num < 4294967296 then .ok q.num.toNat
    else .error "invalid u32"
  | _ => .error "invalid u32"

/-- serde `u32` deserialization under `#[serde(default)]`: a missing
field becomes `0`. -/
def getU32D : Option Json → Except String Nat
  | none => .ok 0
  | o => getU32 o

/-- serde `f64` deserialization: any JSON number, stored as given. -/
def getF64 : Option Json → Except String ℚ
  | some (.num q) => .ok q
  | _ => .error "invalid number"

/-- serde `String` deserialization. -/
def getStr : Option Json → Except String String
  | some (.str s) => .ok s
  | _ => .error "invalid string"

/-- serde `Vec<String>` deserialization under `#[serde(default)]`. -/
def getStrArrayD : Option Json → Except String (List String)
  | none => .ok []
  | some (.arr xs) =>
    xs.foldr
      (fun x acc =>
        match x, acc with
        | .str s, .ok l => .ok (s :: l)
        | _, _ => .error "invalid string array")
      (.ok [])
  | some _ => .error "invalid string array"

structure ScriptPubKey where
  asm : String
  hex : String
  req_sigs : Nat
  type_ : String
  addresses : List String
deriving DecidableEq, Repr

structure Utxo where
  height : Nat
  value : ℚ
  script_pub_key : ScriptPubKey
deriving DecidableEq, Repr

/-- serde deserialization of `ScriptPubKey` (camelCase renames, `type`
rename, defaults on `reqSigs` and `addresses`). -/
def ScriptPubKey.deserialize (j : Json) : Except String ScriptPubKey :=
  match getStr (j.lookupField "asm") with
  | .error e => .error e
  | .ok asm =>
    match getStr (j.lookupField "hex") with
    | .error e => .error e
    | .ok hex =>
      match getU32D (j.lookupField "reqSigs") with
      | .error e => .error e
      | .ok req_sigs =>
        match getStr (j.lookupField "type") with
        | .error e => .error e
        | .ok type_ =>
          match getStrArrayD (j.lookupField "addresses") with
          | .error e => .error e
          | .ok addresses => .ok ⟨asm, hex, req_sigs, type_, addresses⟩

/-- serde deserialization of the nested `scriptPubKey` field. -/
def scriptPubKeyField : Option Json → Except String ScriptPubKey
  | some jj => ScriptPubKey.deserialize jj
  | none => .error "missing field scriptPubKey"

/-- serde deserialization of `Utxo`: `height` is `u32`, `value` is `f64`
(the JSON number, carried unchanged), `scriptPubKey` is the nested object. -/
def Utxo.deserialize (j : Json) : Except String Utxo :=
  match getU32 (j.lookupField "height") with
  | .error e => .error e
  | .ok height =>
    match getF64 (j.lookupField "value") with
    | .error e => .error e
    | .ok value =>
      match scriptPubKeyField (j.lookupField "scriptPubKey") with
      | .error e => .error e
      | .ok spk => .ok ⟨height, value, spk⟩

/-! ## Hex decoding (spec §4.3)

No hex-to-bytes decoder exists under src/ (the library keeps hex fields as
`String`s and the verbose-JSON reconstruction path is absent), so the
decoder below is modelled from the spec. -/

inductive HexError where
  | invalidHexEncoding
deriving DecidableEq, Repr

/-- Value of one hex digit, upper or lower case. -/
def hexDigitVal (c : Char) : Option Nat :=
  if '0' ≤ c ∧ c ≤ '9' then some (c.toNat - '0'.toNat)
  else if 'a' ≤ c ∧ c ≤ 'f' then some (c.toNat - 'a'.toNat + 10)
  else if 'A' ≤ c ∧ c ≤ 'F' then some (c.toNat - 'A'.toNat + 10)
  else none

/-- Modelled from the spec: the JSON-reconstruction-path hex decoder of
§4.3 (absent from src/) — strict even-length, valid-hex-digit decoding of a
hex string to raw bytes, failing with `InvalidHexEncoding` on an odd-length
string or any non-hex digit. -/
def hexDecode : List Char → Except HexError (List Nat)
  | [] => .ok []
  | [_] => .error .invalidHexEncoding
  | c1 :: c2 :: rest =>
    match hexDigitVal c1, hexDigitVal c2 with
    | some hi, some lo =>
      match hexDecode rest with
      | .ok bs => .ok ((16 * hi + lo) :: bs)
      | .error e => .error e
    | _, _ => .error .invalidHexEncoding

/-! ## Transaction and block consensus codec

The library delegates to the external rust-bitcoin codec (spec §1: "treated
as a primitive given"), calling `T::consensus_decode(result.as_ref())` on
the payload slice.  `consensus_decode` reads from an `io::Read`: it
consumes exactly the bytes the encoding needs and leaves any remainder
unread.  Embedded here per the consensus wire layout and the codec
dispatch (version; input vector; BIP144 marker/flag handling when the
input vector is empty; outputs; per-input witnesses in the segwit form;
lock time), with its varint minimality checks.  The allocation-size caps
(which only reject multi-megabyte counts) are not modelled. -/

/-- The `VarInt::consensus_decode`: 1/3/5/9-byte little-endian compact sizes,
rejecting non-minimal encodings. -/
def readVarInt : Dec Nat :=
  dbind readU8 fun b =>
  if b < 0xFD then dpure b
  else if b = 0xFD then
    dbind (readBytes 2) fun w =>
      fun bs => if leVal w < 0xFD then .error .bitcoinEncodeError else .ok (leVal w, bs)
  else if b = 0xFE then
    dbind (readBytes 4) fun w =>
      fun bs => if leVal w < 0x10000 then .error .bitcoinEncodeError else .ok (leVal w, bs)
  else
    dbind (readBytes 8) fun w =>
      fun bs => if leVal w < 0x100000000 then .error .bitcoinEncodeError else .ok (leVal w, bs)

/-- The `Vec<u8>::consensus_decode` (scripts, witness elements): a varint
length followed by that many raw bytes. -/
def readByteVec : Dec (List Nat) :=
  dbind readVarInt fun n => readBytes n

/-- Decode `n` consecutive elements with `d` (the loop inside
`Vec<T>::consensus_decode` after its varint count). -/
def readN {α : Type} (d : Dec α) : Nat → Dec (List α)
  | 0 => dpure []
  | n + 1 =>
    dbind d fun a =>
    dbind (readN d n) fun as =>
    dpure (a :: as)

/-- The `Vec<T>::consensus_decode`: varint count then that many elements. -/
def readVec {α : Type} (d : Dec α) : Dec (List α) :=
  dbind readVarInt fun n => readN d n

structure OutPoint where
  txid : List Nat
  vout : Nat
deriving DecidableEq, Repr

structure TxIn where
  previous_output : OutPoint
  script_sig : List Nat
  sequence : Nat
  witness : List (List Nat)
deriving DecidableEq, Repr

structure TxOut where
  value : Nat
  script_pubkey : List Nat
deriving DecidableEq, Repr

structure Transaction where
  version : Int
  lock_time : Nat
  input : List TxIn
  output : List TxOut
deriving DecidableEq, Repr

/-- The `OutPoint::consensus_decode`: 32-byte txid then u32 vout. -/
def outPointDec : Dec OutPoint :=
  dbind (readBytes 32) fun txid =>
  dbind readU32le fun vout =>
  dpure ⟨txid, vout⟩

/-- The `TxIn::consensus_decode`: outpoint, script, sequence; witness empty. -/
def txInDec : Dec TxIn :=
  dbind outPointDec fun op =>
  dbind readByteVec fun script =>
  dbind readU32le fun seq =>
  dpure ⟨op, script, seq, []⟩

/-- The `TxOut::consensus_decode`: u64 value then script. -/
def txOutDec : Dec TxOut :=
  dbind readU64le fun v =>
  dbind readByteVec fun script =>
  dpure ⟨v, script⟩

/-- The witness-filling loop of the segwit branch: for each input in
order, read its witness stack (`Vec<Vec<u8>>`). -/
def readWitnesses : List TxIn → Dec (List TxIn)
  | [] => dpure []
  | i :: is =>
    dbind (readVec readByteVec) fun w =>
    dbind (readWitnesses is) fun rest =>
    dpure (⟨i.previous_output, i.script_sig, i.sequence, w⟩ :: rest)

/-- The `Transaction::consensus_decode`: version, inputs; on an empty input
vector a segwit flag byte is read (only `0x01` is accepted, and an
all-empty witness set with non-empty inputs is rejected); then outputs and
lock time.  Returns the decoded transaction and the *unconsumed* bytes. -/
def txConsensusDecode : Dec Transaction :=
  dbind readI32le fun version =>
  dbind (readVec txInDec) fun input =>
  if input.isEmpty then
    dbind readU8 fun flag =>
    if flag = 1 then
      dbind (readVec txInDec) fun input2 =>
      dbind (readVec txOutDec) fun output =>
      dbind (readWitnesses input2) fun inputW =>
      if ¬ input2.isEmpty ∧ (inputW.all fun i => i.witness.isEmpty) then
        fun _ => .error .bitcoinEncodeError
      else
        dbind readU32le fun lock_time =>
        dpure ⟨version, lock_time, inputW, output⟩
    else
      fun _ => .error .bitcoinEncodeError
  else
    dbind (readVec txOutDec) fun output =>
    dbind readU32le fun lock_time =>
    dpure ⟨version, lock_time, input, output⟩

/-- The `Block::consensus_decode`: header then transaction vector. -/
def blockConsensusDecode : Dec (BlockHeader × List Transaction) :=
  dbind headerDec fun hdr =>
  dbind (readVec txConsensusDecode) fun txs =>
  dpure (hdr, txs)

/-- The `Context::tx` applied to the payload the transport returned
(src/lib.rs lines 141–146): `Transaction::consensus_decode(result.as_ref())`,
discarding whatever the codec left unread. -/
def tx (payload : List Nat) : Except DecodeError Transaction :=
  match txConsensusDecode payload with
  | .ok (t, _) => .ok t
  | .error e => .error e

/-- The `Context::block` applied to the payload the transport returned
(src/lib.rs lines 147–152). -/
def block (payload : List Nat) : Except DecodeError (BlockHeader × List Transaction) :=
  match blockConsensusDecode payload with
  | .ok (b, _) => .ok b
  | .error e => .error e

/-! ## Auxiliary definitions used by the verification -/

/-- Whether an `Except` result is a success. -/
def exceptIsOk {ε α : Type} : Except ε α → Bool
  | .ok _ => true
  | .error _ => false

/-- The line-feed character: the trailing terminator the Rust source
intends to trim. -/
def lineFeed : Char := Char.ofNat 10

/-- The headers obtained by decoding each of the first `count` contiguous
80-byte windows of `bs` independently, in payload order. -/
def decodedWindows (count : Nat) (bs : List Nat) : List BlockHeader :=
  (List.range count).map fun i => mkHeaderFrom ((bs.drop (80 * i)).take 80)

/-- A prefix decoder is stable under extending the input: whatever it
decodes from `bs` it also decodes from `bs ++ g`, leaving `g` unread at the
end.  This is how the rust-bitcoin `consensus_decode` behaves on an
`io::Read`: bytes after the consumed prefix are never examined. -/
def PrefixStable {α : Type} (f : Dec α) : Prop :=
  ∀ (bs g : List Nat) (a : α) (rest : List Nat),
    f bs = .ok (a, rest) → f (bs ++ g) = .ok (a, rest ++ g)

/-! ### Concrete inputs used in counterexamples and witnesses -/

/-- A minimal well-formed non-segwit transaction encoding: version 1, one
input (null outpoint, empty script, max sequence), no outputs, lock time 0
— 51 bytes. -/
def minimalTx : List Nat :=
  [1, 0, 0, 0] ++ [1] ++ List.replicate 32 0 ++ [255, 255, 255, 255] ++
    [0] ++ [255, 255, 255, 255] ++ [0] ++ [0, 0, 0, 0]

/-- The transaction `minimalTx` encodes. -/
def minimalTxVal : Transaction :=
  ⟨1, 0, [⟨⟨List.replicate 32 0, 4294967295⟩, [], 4294967295, []⟩], []⟩

/-- The `minimalTx` followed by one byte of trailing garbage. -/
def txGarbagePayload : List Nat :=
  minimalTx ++ [222]

/-- A record decoder used to exercise the generic `headers` loop: accepts
windows starting with a zero byte, rejects the rest with error code `7`. -/
def w7dec (bs : List Nat) : Except Nat Unit :=
  if bs.head? = some 0 then .ok () else .error 7

/-- Two 80-byte records: the first decodes under `w7dec`, the second does
not. -/
def w7bytes : List Nat :=
  List.replicate 80 0 ++ List.replicate 80 1

/-- A JSON `Utxo` description whose `value` field is the number `1`
(i.e. the JSON text `1.0`, exactly representable as an `f64`). -/
def c2JsonEx : Json :=
  Json.obj
    [("height", Json.num 1),
     ("value", Json.num 1),
     ("scriptPubKey",
      Json.obj
        [("asm", Json.str "x"),
         ("hex", Json.str "00"),
         ("type", Json.str "pubkey")])]

/-- The `Utxo` the library deserializes from `c2JsonEx`. -/
def c2UtxoEx : Utxo :=
  ⟨1, 1, ⟨"x", "00", 0, "pubkey", []⟩⟩

/-! # Verification -/

/-! ## Prefix-decoder calculus -/

theorem dbind_ok {α β : Type} {f : Dec α} {k : α → Dec β} {bs rest : List Nat} {a : α}
    (h : f bs = .ok (a, rest)) : dbind f k bs = k a rest := by
  simp [dbind, h]

theorem readBytes_complete {n : Nat} {bs : List Nat} (h : n ≤ bs.length) :
    readBytes n bs = .ok (bs.take n, bs.drop n) := by
  simp [readBytes, h]

/-! ## The header codec consumes exactly 80 bytes -/

theorem headerDec_complete (bs : List Nat) (h : 80 ≤ bs.length) :
    headerDec bs = .ok (mkHeaderFrom bs, bs.drop 80) := by
  have e1 : readI32le bs = .ok (asI32 (leVal (bs.take 4)), bs.drop 4) := by
    have h4 : 4 ≤ bs.length := by omega
    simp [readI32le, dbind, dpure, readBytes, h4]
  have e2 : readBytes 32 (bs.drop 4) = .ok ((bs.drop 4).take 32, bs.drop 36) := by
    have c : 32 ≤ (bs.drop 4).length := by rw [List.length_drop]; omega
    simp [readBytes_complete c, List.drop_drop]
  have e3 : readBytes 32 (bs.drop 36) = .ok ((bs.drop 36).take 32, bs.drop 68) := by
    have c : 32 ≤ (bs.drop 36).length := by rw [List.length_drop]; omega
    simp [readBytes_complete c, List.drop_drop]
  have e4 : readU32le (bs.drop 68) = .ok (leVal ((bs.drop 68).take 4), bs.drop 72) := by
    have c : 4 ≤ (bs.drop 68).length := by rw [List.length_drop]; omega
    simp [readU32le, dbind, dpure, readBytes_complete c, List.drop_drop]
  have e5 : readU32le (bs.drop 72) = .ok (leVal ((bs.drop 72).take 4), bs.drop 76) := by
    have c : 4 ≤ (bs.drop 72).length := by rw [List.length_drop]; omega
    simp [readU32le, dbind, dpure, readBytes_complete c, List.drop_drop]
  have e6 : readU32le (bs.drop 76) = .ok (leVal ((bs.drop 76).take 4), bs.drop 80) := by
    have c : 4 ≤ (bs.drop 76).length := by rw [List.length_drop]; omega
    simp [readU32le, dbind, dpure, readBytes_complete c, List.drop_drop]
  simp only [headerDec, dbind_ok e1, dbind_ok e2, dbind_ok e3, dbind_ok e4, dbind_ok e5,
    dbind_ok e6, dpure, mkHeaderFrom]

theorem headerRecordDecode_ok (bs : List Nat) (h : 80 ≤ bs.length) :
    headerRecordDecode bs = .ok (mkHeaderFrom bs) := by
  rw [headerRecordDecode, headerDec_complete bs h]

/-! ## The `headers` loop on exact multiples of 80 bytes -/

theorem headersLoop_decodes_multiple :
    ∀ (k : Nat) (bs : List Nat), bs.length = 80 * k →
      headersLoop headerRecordDecode bs = .ok (decodedWindows k bs) := by
  intro k
  induction k with
  | zero =>
    intro bs h
    have hnil : bs = [] := List.length_eq_zero.mp (by omega)
    subst hnil
    simp [headersLoop, decodedWindows]
  | succ k ih =>
    intro bs h
    cases bs with
    | nil => simp at h
    | cons b tl =>
      have h80 : ¬ (b :: tl).length < 80 := by omega
      have hd : headerRecordDecode ((b :: tl).take 80) =
          .ok (mkHeaderFrom ((b :: tl).take 80)) :=
        headerRecordDecode_ok _ (by rw [List.length_take]; omega)
      have hr := ih ((b :: tl).drop 80) (by rw [List.length_drop]; omega)
      rw [headersLoop, if_neg h80, hd, hr]
      show CallResult.ok (mkHeaderFrom ((b :: tl).take 80) ::
          decodedWindows k ((b :: tl).drop 80)) =
        CallResult.ok (decodedWindows (k + 1) (b :: tl))
      congr 1
      unfold decodedWindows
      rw [List.range_succ_eq_map, List.map_cons, List.map_map]
      congr 1
      refine List.map_congr_left ?_
      intro i _
      simp only [Function.comp, Nat.succ_eq_add_one, List.drop_drop]
      have harg : 80 + 80 * i = 80 * (i + 1) := by ring
      rw [harg]

/-! ## The `headers` loop panics off multiples of 80 bytes -/

theorem headersLoop_panics_aux :
    ∀ (n : Nat) (bs : List Nat), bs.length ≤ n → bs.length % 80 ≠ 0 →
      headersLoop headerRecordDecode bs = .panicked := by
  intro n
  induction n with
  | zero => intro bs hle hmod; omega
  | succ n ih =>
    intro bs hle hmod
    cases bs with
    | nil => simp at hmod
    | cons b tl =>
      by_cases hlt : (b :: tl).length < 80
      · rw [headersLoop, if_pos hlt]
      · have hd : headerRecordDecode ((b :: tl).take 80) =
            .ok (mkHeaderFrom ((b :: tl).take 80)) :=
          headerRecordDecode_ok _ (by rw [List.length_take]; omega)
        have hr := ih ((b :: tl).drop 80)
          (by rw [List.length_drop]; omega)
          (by rw [List.length_drop]; omega)
        rw [headersLoop, if_neg hlt, hd, hr]

/-! ## The `headers` loop surfaces the first record error -/

theorem headersLoop_first_error {ε H : Type} (dec : List Nat → Except ε H) :
    ∀ (j k : Nat) (bs : List Nat) (e : ε), bs.length = 80 * k → j < k →
      (∀ i, i < j → exceptIsOk (dec ((bs.drop (80 * i)).take 80)) = true) →
      dec ((bs.drop (80 * j)).take 80) = .error e →
      headersLoop dec bs = .error e := by
  intro j
  induction j with
  | zero =>
    intro k bs e hlen hjk _ herr
    cases bs with
    | nil => simp at hlen; omega
    | cons b tl =>
      have h80 : ¬ (b :: tl).length < 80 := by omega
      rw [headersLoop, if_neg h80]
      simp only [Nat.mul_zero, List.drop_zero] at herr
      rw [herr]
  | succ j ih =>
    intro k bs e hlen hjk hok herr
    cases bs with
    | nil => simp at hlen; omega
    | cons b tl =>
      have h80 : ¬ (b :: tl).length < 80 := by omega
      have hok0 := hok 0 (by omega)
      simp only [Nat.mul_zero, List.drop_zero] at hok0
      rw [headersLoop, if_neg h80]
      cases hd : dec ((b :: tl).take 80) with
      | error e0 => rw [hd] at hok0; simp [exceptIsOk] at hok0
      | ok h0 =>
        have hr := ih (k - 1) ((b :: tl).drop 80) e
          (by rw [List.length_drop]; omega) (by omega)
          (by
            intro i hi
            have hsh := hok (i + 1) (by omega)
            have harg : ((b :: tl).drop (80 * (i + 1))).take 80 =
                (((b :: tl).drop 80).drop (80 * i)).take 80 := by
              rw [List.drop_drop]
              congr 2
              omega
            rw [harg] at hsh
            exact hsh)
          (by
            have harg : ((b :: tl).drop (80 * (j + 1))).take 80 =
                (((b :: tl).drop 80).drop (80 * j)).take 80 := by
              rw [List.drop_drop]
              congr 2
              omega
            rw [harg] at herr
            exact herr)
        rw [hr]

/-! ## Claims C1, C6, C7, C9: the `headers` decoder -/

/-- Claim C1 (counterexample): on the 1-byte payload `[0]` with `count = 1`
the payload length differs from `count * 80`, yet `headers` panics on the
out-of-range slice `result[0..80]` instead of returning an error value
(`TruncatedStream` does not exist in the library error type). -/
theorem c1_counterexample :
    ([0] : List Nat).length ≠ 1 * 80 ∧
    headersResult 1 [0] = CallResult.panicked ∧
    headersResult 1 [0] ≠ CallResult.error DecodeError.bitcoinEncodeError := by
  have h2 : headersResult 1 [0] = CallResult.panicked :=
    headersLoop_panics_aux 1 [0] (by decide) (by decide)
  exact ⟨by decide, h2, by rw [h2]; simp⟩

/-- Claim C1 (amended): `headers` never compares the payload length with
`count * 80` and has no `TruncatedStream` error; whenever the payload
length is not a multiple of 80 — including any length strictly between 0
and 80 — the decoding loop panics on an out-of-range slice rather than
returning an error value, for every `count`. -/
theorem c1_amended_panic (count : Nat) (bs : List Nat) (h : bs.length % 80 ≠ 0) :
    headersResult count bs = CallResult.panicked :=
  headersLoop_panics_aux bs.length bs (Nat.le_refl _) h

/-- Claim C1 (amended, witness at `count = 1`, payload `[0]`). -/
theorem c1_amended_witness :
    ([0] : List Nat).length % 80 ≠ 0 ∧ headersResult 1 [0] = CallResult.panicked :=
  ⟨by decide, c1_amended_panic 1 [0] (by decide)⟩

/-- Claim C6: when the payload length equals `count * 80`, `headers`
returns exactly `count` block headers, the i-th being the decode of the
i-th contiguous 80-byte window, in payload order; each window decodes
independently (and, on 80 bytes, successfully). -/
theorem c6_headers_windows (count : Nat) (bs : List Nat)
    (h : bs.length = count * 80) :
    headersResult count bs = CallResult.ok (decodedWindows count bs) ∧
    (decodedWindows count bs).length = count ∧
    ∀ i, i < count →
      headerRecordDecode ((bs.drop (80 * i)).take 80) =
        .ok (mkHeaderFrom ((bs.drop (80 * i)).take 80)) := by
  refine ⟨headersLoop_decodes_multiple count bs (by omega), by simp [decodedWindows], ?_⟩
  intro i hi
  exact headerRecordDecode_ok _ (by rw [List.length_take, List.length_drop]; omega)

/-- Claim C6 (witness at `count = 1` on an all-zero 80-byte payload). -/
theorem c6_witness :
    (List.replicate (α := Nat) 80 0).length = 1 * 80 ∧
    headersResult 1 (List.replicate 80 0) =
      CallResult.ok (decodedWindows 1 (List.replicate 80 0)) :=
  ⟨by decide, (c6_headers_windows 1 (List.replicate 80 0) (by decide)).1⟩

/-- Claim C7: in the `headers` loop — generic in the record decoder, as
the code is generic in `Decodable` — if the records before position `j`
decode and the `j`-th record fails with error `e`, the whole call returns
exactly that first error and never a partial header list. -/
theorem c7_first_error {ε H : Type} (dec : List Nat → Except ε H) (j k : Nat)
    (bs : List Nat) (e : ε) (hlen : bs.length = 80 * k) (hjk : j < k)
    (hok : ∀ i, i < j → exceptIsOk (dec ((bs.drop (80 * i)).take 80)) = true)
    (herr : dec ((bs.drop (80 * j)).take 80) = .error e) :
    headersLoop dec bs = CallResult.error e :=
  headersLoop_first_error dec j k bs e hlen hjk hok herr

set_option maxRecDepth 8000 in
/-- Claim C7 (witness: two records, the second rejected with error 7). -/
theorem c7_witness : headersLoop w7dec w7bytes = CallResult.error 7 :=
  c7_first_error w7dec 1 2 w7bytes 7 (by decide) (by decide) (by decide) (by rfl)

/-- Claim C9: on a payload whose length is a positive multiple of 80,
`headers` decodes all `length / 80` records without error, and the decoded
result is identical for any two values of `count` — `count` only enters
the request path. -/
theorem c9_count_irrelevant (count count2 : Nat) (bs : List Nat)
    (_hpos : 0 < bs.length) (hmod : bs.length % 80 = 0) :
    headersResult count bs = headersResult count2 bs ∧
    headersResult count bs = CallResult.ok (decodedWindows (bs.length / 80) bs) ∧
    (decodedWindows (bs.length / 80) bs).length = bs.length / 80 := by
  refine ⟨rfl, ?_, by simp [decodedWindows]⟩
  exact headersLoop_decodes_multiple (bs.length / 80) bs (by omega)

set_option maxRecDepth 8000 in
/-- Claim C9 (witness: a 160-byte payload decoded with `count = 7` and
`count = 1`). -/
theorem c9_witness :
    0 < (List.replicate (α := Nat) 160 0).length ∧
    headersResult 7 (List.replicate 160 0) = headersResult 1 (List.replicate 160 0) :=
  ⟨by decide, (c9_count_irrelevant 7 1 (List.replicate 160 0) (by decide) (by decide)).1⟩

/-! ## Claims C3 and C8: `call_hex` -/

theorem stringPop_concat : ∀ (s : List Char) (c : Char), stringPop (s ++ [c]) = (s, some c) := by
  intro s c
  induction s with
  | nil => rfl
  | cons a s ih =>
    cases s with
    | nil => simp [stringPop]
    | cons b s' =>
      simp only [List.cons_append] at ih ⊢
      simp [stringPop, ih]

/-- Claim C8: `call_hex` removes the final character of the body
unconditionally — whatever that character is — and returns the empty
string unchanged (no error, no panic) on an empty body. -/
theorem c8_pop_unconditional :
    (∀ (s : List Char) (c : Char), call_hex (s ++ [c]) = s) ∧
    call_hex ([] : List Char) = [] := by
  constructor
  · intro s c
    rw [call_hex, stringPop_concat]
  · rfl

/-- Claim C3 (counterexample): on the body `"ab"`, which does not end in a
line terminator, `call_hex` removes the final payload character b — so a
character other than a single trailing terminator is removed, and nothing
guards against the missing terminator. -/
theorem c3_counterexample :
    call_hex ['a', 'b'] = ['a'] ∧ 'b' ≠ lineFeed := by
  exact ⟨rfl, by decide⟩

/-- Claim C3 (amended): `call_hex` strips the final character
unconditionally: when the body ends in exactly one trailing line
terminator it strips exactly that terminator and returns the remaining
text unchanged, but no guard exists — a body ending in any other character
loses that character instead. -/
theorem c3_amended_strip (s : List Char) (c : Char) (_hc : c ≠ lineFeed) :
    call_hex (s ++ [lineFeed]) = s ∧ call_hex (s ++ [c]) = s := by
  constructor
  · rw [call_hex, stringPop_concat]
  · rw [call_hex, stringPop_concat]

/-- Claim C3 (amended, witness on the bodies `"a\n"` and `"ab"`). -/
theorem c3_amended_witness :
    'b' ≠ lineFeed ∧ (call_hex ['a', lineFeed] = ['a'] ∧ call_hex ['a', 'b'] = ['a']) :=
  ⟨by decide, c3_amended_strip ['a'] 'b' (by decide)⟩

/-! ## Claim C2: monetary values in JSON deserialization -/

theorem getF64_ok {o : Option Json} {q : ℚ} (h : getF64 o = .ok q) :
    o = some (Json.num q) := by
  cases o with
  | none => simp [getF64] at h
  | some j =>
    cases j with
    | num q' =>
      have hq : q' = q := by simpa [getF64] using h
      rw [hq]
    | null => simp [getF64] at h
    | str s => simp [getF64] at h
    | bool b => simp [getF64] at h
    | arr xs => simp [getF64] at h
    | obj fs => simp [getF64] at h

/-- Claim C2 (counterexample): deserializing a UTXO whose JSON `value`
field is the number `1` (the maximum-precision reading of the text `1.0`)
yields a domain object whose `value` is still `1` — not the 64-bit satoshi
count `100000000` the claim requires; no multiplication by 1e8 happens
anywhere in the library. -/
theorem c2_counterexample :
    Utxo.deserialize c2JsonEx = .ok c2UtxoEx ∧ c2UtxoEx.value ≠ (100000000 : ℚ) :=
  ⟨rfl, by decide⟩

/-- Claim C2 (amended): every successfully deserialized UTXO carries its
`value` field exactly as the JSON number supplied (a floating-point count
of whole coins), with no conversion to an integer satoshi amount. -/
theorem c2_amended_value_unchanged (j : Json) (u : Utxo)
    (h : Utxo.deserialize j = .ok u) :
    j.lookupField "value" = some (Json.num u.value) := by
  rw [Utxo.deserialize] at h
  cases h1 : getU32 (j.lookupField "height") with
  | error e => rw [h1] at h; simp at h
  | ok height =>
    rw [h1] at h
    cases h2 : getF64 (j.lookupField "value") with
    | error e => rw [h2] at h; simp at h
    | ok q =>
      rw [h2] at h
      cases h3 : scriptPubKeyField (j.lookupField "scriptPubKey") with
      | error e => rw [h3] at h; simp at h
      | ok spk =>
        rw [h3] at h
        injection h with h
        subst h
        exact getF64_ok h2

/-- Claim C2 (amended, witness on `c2JsonEx`). -/
theorem c2_amended_witness :
    Utxo.deserialize c2JsonEx = .ok c2UtxoEx ∧
    c2JsonEx.lookupField "value" = some (Json.num c2UtxoEx.value) :=
  ⟨rfl, c2_amended_value_unchanged c2JsonEx c2UtxoEx rfl⟩

/-! ## Claim C4: strict hex decoding (spec-modelled) -/

theorem hexDecode_oddLength_aux :
    ∀ (n : Nat) (s : List Char), s.length ≤ n → s.length % 2 = 1 →
      hexDecode s = .error .invalidHexEncoding := by
  intro n
  induction n with
  | zero => intro s h1 h2; omega
  | succ n ih =>
    intro s h1 h2
    cases s with
    | nil => simp at h2
    | cons c1 s1 =>
      cases s1 with
      | nil => rfl
      | cons c2 rest =>
        cases hv1 : hexDigitVal c1 with
        | none => simp [hexDecode, hv1]
        | some hi =>
          cases hv2 : hexDigitVal c2 with
          | none => simp [hexDecode, hv1, hv2]
          | some lo =>
            have hr : hexDecode rest = .error .invalidHexEncoding := by
              refine ih rest ?_ ?_
              · simp at h1; omega
              · simp at h2 ⊢; omega
            simp [hexDecode, hv1, hv2, hr]

theorem hexDecode_invalidDigit_aux :
    ∀ (n : Nat) (s : List Char) (c : Char), s.length ≤ n → c ∈ s →
      hexDigitVal c = none → hexDecode s = .error .invalidHexEncoding := by
  intro n
  induction n with
  | zero =>
    intro s c h1 hmem hv
    cases s with
    | nil => simp at hmem
    | cons a t => simp at h1
  | succ n ih =>
    intro s c h1 hmem hv
    cases s with
    | nil => simp at hmem
    | cons c1 s1 =>
      cases s1 with
      | nil => rfl
      | cons c2 rest =>
        cases hv1 : hexDigitVal c1 with
        | none => simp [hexDecode, hv1]
        | some hi =>
          cases hv2 : hexDigitVal c2 with
          | none => simp [hexDecode, hv1, hv2]
          | some lo =>
            have hcrest : c ∈ rest := by
              simp only [List.mem_cons] at hmem
              rcases hmem with h | h | h
              · subst h; rw [hv] at hv1; exact absurd hv1 (by simp)
              · subst h; rw [hv] at hv2; exact absurd hv2 (by simp)
              · exact h
            have hr := ih rest c (by simp at h1; omega) hcrest hv
            simp [hexDecode, hv1, hv2, hr]

/-- Claim C4: the (spec-modelled) hex decoder is strict — `"ab"` decodes to
the single byte `0xAB = 171`, every odd-length string fails with
`InvalidHexEncoding`, and every string containing a non-hex digit fails
with `InvalidHexEncoding`. -/
theorem c4_hex_strict :
    hexDecode ['a', 'b'] = .ok [171] ∧
    (∀ s : List Char, s.length % 2 = 1 →
      hexDecode s = .error .invalidHexEncoding) ∧
    (∀ (s : List Char) (c : Char), c ∈ s → hexDigitVal c = none →
      hexDecode s = .error .invalidHexEncoding) := by
  refine ⟨rfl, ?_, ?_⟩
  · intro s h
    exact hexDecode_oddLength_aux s.length s (Nat.le_refl _) h
  · intro s c hm hv
    exact hexDecode_invalidDigit_aux s.length s c (Nat.le_refl _) hm hv

/-- Claim C4 (witness: the odd-length string `"a"` is rejected). -/
theorem c4_witness :
    (['a'] : List Char).length % 2 = 1 ∧
    hexDecode ['a'] = .error .invalidHexEncoding :=
  ⟨by decide, c4_hex_strict.2.1 ['a'] (by decide)⟩

/-! ## Claim C10: the `getutxos` request path -/

theorem getutxos_foldl_concat :
    ∀ (ts : List String) (n : Nat) (u : String),
      (List.enumFrom n ts).foldl (fun a p => a ++ (p.2 ++ "-" ++ toString p.1)) u =
        u ++ outpointConcat ts n := by
  intro ts
  induction ts with
  | nil =>
    intro n u
    simp [outpointConcat, String.append_empty]
  | cons t ts ih =>
    intro n u
    simp only [List.enumFrom, List.foldl, outpointConcat]
    rw [ih]
    simp [String.append_assoc]

/-- Claim C10: the `getutxos` request path is `"getutxos/"`, then
`"checkmempool/"` exactly when the flag is set, then each transaction id
joined by `"-"` to its zero-based position in the input list, with no
separator between consecutive outpoint entries — the output index is
always the position, never caller-supplied. -/
theorem c10_getutxos_path (checkmempool : Bool) (txids : List String) :
    getutxosPath checkmempool txids =
      "getutxos/" ++ (if checkmempool then "checkmempool/" else "") ++
        outpointConcat txids 0 := by
  cases checkmempool with
  | false =>
    show (txids.enum).foldl _ "getutxos/" = _
    rw [List.enum, getutxos_foldl_concat]
    simp [String.append_empty, String.append_assoc]
  | true =>
    show (txids.enum).foldl _ ("getutxos/" ++ "checkmempool/") = _
    rw [List.enum, getutxos_foldl_concat]
    simp [String.append_assoc]

/-! ## Claim C5: prefix behaviour of the binary object decoders

Every primitive decoder is prefix-stable (`PrefixStable`): bytes appended
after the consumed prefix change neither success nor the decoded value.
Hence `tx`/`block` accept trailing garbage. -/

theorem dpure_stable {α : Type} (a : α) : PrefixStable (dpure a) := by
  intro bs g a' rest h
  simp only [dpure] at h ⊢
  obtain ⟨rfl, rfl⟩ : a = a' ∧ bs = rest := by simpa using h
  rfl

theorem error_stable {α : Type} {e : DecodeError} :
    PrefixStable (fun _ => (.error e : Except DecodeError (α × List Nat))) := by
  intro bs g a rest h
  simp at h

theorem dbind_stable {α β : Type} {f : Dec α} {k : α → Dec β}
    (hf : PrefixStable f) (hk : ∀ a, PrefixStable (k a)) :
    PrefixStable (dbind f k) := by
  intro bs g b rest h
  rw [dbind] at h
  cases hfe : f bs with
  | error e => rw [hfe] at h; simp at h
  | ok ar =>
    obtain ⟨a, mid⟩ := ar
    rw [hfe] at h
    have hf2 := hf bs g a mid hfe
    rw [dbind, hf2]
    exact hk a mid g b rest h

theorem readBytes_stable (n : Nat) : PrefixStable (readBytes n) := by
  intro bs g a rest h
  rw [readBytes] at h
  by_cases hn : n ≤ bs.length
  · rw [if_pos hn] at h
    obtain ⟨rfl, rfl⟩ : bs.take n = a ∧ bs.drop n = rest := by simpa using h
    rw [readBytes, if_pos (by rw [List.length_append]; omega)]
    rw [List.take_append_of_le_length hn, List.drop_append_of_le_length hn]
  · rw [if_neg hn] at h
    simp at h

theorem if_stable {c : Prop} [Decidable c] {α : Type} {f g : Dec α}
    (hf : PrefixStable f) (hg : PrefixStable g) :
    PrefixStable (if c then f else g) := by
  by_cases h : c
  · simpa [h] using hf
  · simpa [h] using hg

theorem guard_stable {α : Type} (c : Prop) [Decidable c] (v : α) :
    PrefixStable (fun bs =>
      if c then (.error .bitcoinEncodeError : Except DecodeError (α × List Nat))
      else .ok (v, bs)) := by
  intro bs g a rest h
  by_cases hc : c
  · simp only [if_pos hc] at h
    simp at h
  · simp only [if_neg hc] at h
    obtain ⟨rfl, rfl⟩ : v = a ∧ bs = rest := by simpa using h
    simp only [if_neg hc]

theorem readU8_stable : PrefixStable readU8 :=
  dbind_stable (readBytes_stable 1) fun b => dpure_stable (leVal b)

theorem readU32le_stable : PrefixStable readU32le :=
  dbind_stable (readBytes_stable 4) fun b => dpure_stable (leVal b)

theorem readU64le_stable : PrefixStable readU64le :=
  dbind_stable (readBytes_stable 8) fun b => dpure_stable (leVal b)

theorem readI32le_stable : PrefixStable readI32le :=
  dbind_stable (readBytes_stable 4) fun b => dpure_stable (asI32 (leVal b))

theorem readVarInt_stable : PrefixStable readVarInt :=
  dbind_stable readU8_stable fun b =>
    if_stable (dpure_stable b)
      (if_stable
        (dbind_stable (readBytes_stable 2) fun w => guard_stable _ (leVal w))
        (if_stable
          (dbind_stable (readBytes_stable 4) fun w => guard_stable _ (leVal w))
          (dbind_stable (readBytes_stable 8) fun w => guard_stable _ (leVal w))))

theorem readByteVec_stable : PrefixStable readByteVec :=
  dbind_stable readVarInt_stable fun n => readBytes_stable n

theorem readN_stable {α : Type} {d : Dec α} (hd : PrefixStable d) :
    ∀ n : Nat, PrefixStable (readN d n) := by
  intro n
  induction n with
  | zero => exact dpure_stable []
  | succ n ih =>
    exact dbind_stable hd fun a => dbind_stable ih fun as => dpure_stable (a :: as)

theorem readVec_stable {α : Type} {d : Dec α} (hd : PrefixStable d) :
    PrefixStable (readVec d) :=
  dbind_stable readVarInt_stable fun n => readN_stable hd n

theorem outPointDec_stable : PrefixStable outPointDec :=
  dbind_stable (readBytes_stable 32) fun txid =>
    dbind_stable readU32le_stable fun vout => dpure_stable ⟨txid, vout⟩

theorem txInDec_stable : PrefixStable txInDec :=
  dbind_stable outPointDec_stable fun op =>
    dbind_stable readByteVec_stable fun script =>
      dbind_stable readU32le_stable fun seq => dpure_stable ⟨op, script, seq, []⟩

theorem txOutDec_stable : PrefixStable txOutDec :=
  dbind_stable readU64le_stable fun v =>
    dbind_stable readByteVec_stable fun script => dpure_stable ⟨v, script⟩

theorem readWitnesses_stable : ∀ l : List TxIn, PrefixStable (readWitnesses l) := by
  intro l
  induction l with
  | nil => exact dpure_stable []
  | cons i is ih =>
    exact dbind_stable (readVec_stable readByteVec_stable) fun w =>
      dbind_stable ih fun rest => dpure_stable (⟨i.previous_output, i.script_sig, i.sequence, w⟩ :: rest)

theorem txConsensusDecode_stable : PrefixStable txConsensusDecode :=
  dbind_stable readI32le_stable fun version =>
    dbind_stable (readVec_stable txInDec_stable) fun input =>
      if_stable
        (dbind_stable readU8_stable fun _flag =>
          if_stable
            (dbind_stable (readVec_stable txInDec_stable) fun input2 =>
              dbind_stable (readVec_stable txOutDec_stable) fun output =>
                dbind_stable (readWitnesses_stable input2) fun inputW =>
                  if_stable error_stable
                    (dbind_stable readU32le_stable fun lock_time =>
                      dpure_stable ⟨version, lock_time, inputW, output⟩))
            error_stable)
        (dbind_stable (readVec_stable txOutDec_stable) fun output =>
          dbind_stable readU32le_stable fun lock_time =>
            dpure_stable ⟨version, lock_time, input, output⟩)

theorem headerDec_stable : PrefixStable headerDec :=
  dbind_stable readI32le_stable fun version =>
    dbind_stable (readBytes_stable 32) fun prev =>
      dbind_stable (readBytes_stable 32) fun merkle =>
        dbind_stable readU32le_stable fun time =>
          dbind_stable readU32le_stable fun bits =>
            dbind_stable readU32le_stable fun nonce =>
              dpure_stable ⟨version, prev, merkle, time, bits, nonce⟩

theorem blockConsensusDecode_stable : PrefixStable blockConsensusDecode :=
  dbind_stable headerDec_stable fun hdr =>
    dbind_stable (readVec_stable txConsensusDecode_stable) fun txs =>
      dpure_stable (hdr, txs)

/-- Claim C5 (counterexample): appending one garbage byte after a valid
transaction encoding is *accepted*: the codec leaves the byte unread and
`tx` returns the decoded transaction instead of a `MalformedEncoding`
error. -/
theorem c5_counterexample :
    txConsensusDecode txGarbagePayload = .ok (minimalTxVal, [222]) ∧
    tx txGarbagePayload = .ok minimalTxVal ∧
    tx txGarbagePayload ≠ .error DecodeError.bitcoinEncodeError := by
  refine ⟨rfl, rfl, ?_⟩
  have he : tx txGarbagePayload = .ok minimalTxVal := rfl
  rw [he]
  simp

/-- Claim C5 (amended): `tx` and `block` fail with the codec opaque
`MalformedEncoding` error exactly when the codec itself fails (truncation
or structural violation), but trailing garbage after a valid encoding is
silently ignored, not rejected: appending any bytes to an exactly-valid
payload still decodes to the same object. -/
theorem c5_amended_prefix :
    (∀ (bs g : List Nat) (t : Transaction),
      txConsensusDecode bs = .ok (t, []) → tx (bs ++ g) = .ok t) ∧
    (∀ (bs : List Nat) (e : DecodeError),
      txConsensusDecode bs = .error e → tx bs = .error e) ∧
    (∀ (bs g : List Nat) (b : BlockHeader × List Transaction),
      blockConsensusDecode bs = .ok (b, []) → block (bs ++ g) = .ok b) ∧
    (∀ (bs : List Nat) (e : DecodeError),
      blockConsensusDecode bs = .error e → block bs = .error e) := by
  refine ⟨?_, ?_, ?_, ?_⟩
  · intro bs g t h
    have hs := txConsensusDecode_stable bs g t [] h
    rw [tx, hs]
  · intro bs e h
    rw [tx, h]
  · intro bs g b h
    have hs := blockConsensusDecode_stable bs g b [] h
    rw [block, hs]
  · intro bs e h
    rw [block, h]

/-- Claim C5 (amended, witness: the minimal transaction plus one garbage
byte). -/
theorem c5_amended_witness :
    txConsensusDecode minimalTx = .ok (minimalTxVal, []) ∧
    tx (minimalTx ++ [222]) = .ok minimalTxVal :=
  ⟨rfl, c5_amended_prefix.1 minimalTx [222] minimalTxVal rfl⟩

end BitcoinRest
